import Mathlib

/-!
# Block-signing-key rotation records (`identity/newBlockSigning.go`)

A shallow embedding of the record builder of the `identity` package and the
properties of its three entry points `MakeBlockSigningKeyFixed`,
`MakeBlockSigningKey` and `MakeBlockSigningKeySeeded`.

Modelling conventions

* A byte is a natural number; every byte the code computes is below 256.
* A Go `string` is the sequence of its bytes (`GoString`).
* A fixed-size array `[n]byte` is a list together with a proof of its length.
* A Go call either returns its results or panics (`Run`).
* The wall clock, the process-wide random reader and the spare capacity the
  allocator leaves behind a decoded slice are read from a `World`.
* The two package constants `ProofOfWorkLength`, `ProofOfWorkChainID` (declared
  in another file of the package) and the curve arithmetic of the ed25519
  library are fields of `Pkg`.
-/

namespace Identity

/-! ## Bytes, strings, arrays, errors -/

/-- One byte. -/
abbrev Byte := Nat

/-- Go `string`: an immutable sequence of bytes. -/
abbrev GoString := List Byte

/-- The bytes of an ASCII string literal. -/
def str (s : String) : GoString := s.toList.map Char.toNat

/-- Go `[n]byte`. -/
abbrev Arr (n : Nat) := { l : List Byte // l.length = n }

/-- Go `error` values that can reach the builder. -/
inductive GoError where
  /-- Value `io.EOF`. -/
  | EOF
  /-- Value `io.ErrUnexpectedEOF`. -/
  | ErrUnexpectedEOF
  /-- Value `hex.ErrLength`: odd length hex string. -/
  | ErrLength
  /-- Value `hex.InvalidByteError(b)`. -/
  | InvalidByteError (b : Byte)
  /-- Value `errors.New(msg)`. -/
  | New (msg : String)
  /-- Any other failure of a reader. -/
  | other (code : Nat)
  deriving DecidableEq

/-- Outcome of running a Go call: it returns, or it panics. -/
inductive Run (α : Type) where
  | done (a : α)
  | panic
  deriving DecidableEq

/-! ## `encoding/hex` -/

/-- Entry of `reverseHexTable` in `encoding/hex`: the value of a hex digit,
`none` for the table entry `0xff`. -/
def fromHexChar (c : Byte) : Option Byte :=
  if 48 ≤ c ∧ c ≤ 57 then some (c - 48)
  else if 97 ≤ c ∧ c ≤ 102 then some (c - 97 + 10)
  else if 65 ≤ c ∧ c ≤ 70 then some (c - 65 + 10)
  else none

/-- Loop of `hex.Decode`: two digits per byte; an invalid digit is reported
before an odd length. On an error the bytes decoded so far are returned with it. -/
def hexDecode : List Byte → List Byte × Option GoError
  | [] => ([], none)
  | [p] =>
    match fromHexChar p with
    | none => ([], some (GoError.InvalidByteError p))
    | some _ => ([], some GoError.ErrLength)
  | p :: q :: rest =>
    match fromHexChar p with
    | none => ([], some (GoError.InvalidByteError p))
    | some a =>
      match fromHexChar q with
      | none => ([], some (GoError.InvalidByteError q))
      | some b => ((a * 16 + b) :: (hexDecode rest).1, (hexDecode rest).2)

/-- Go slice of bytes: its `len` visible elements and the elements of the
backing array that lie between its length and its capacity. -/
structure Slice where
  elems : List Byte
  spare : List Byte
  deriving DecidableEq

/-- Slice expression `s[:n]`: in range up to the capacity, a panic beyond it. -/
def Slice.upTo (s : Slice) (n : Nat) : Option (List Byte) :=
  if n ≤ s.elems.length + s.spare.length then some ((s.elems ++ s.spare).take n) else none

/-- Slice expression `l[:n]` on a slice whose capacity is its length. -/
def sliceTo (l : List Byte) (n : Nat) : Option (List Byte) :=
  if n ≤ l.length then some (l.take n) else none

/-- Function `bytes.Compare`: lexicographic comparison, result -1, 0 or 1. -/
def bytesCompare : List Byte → List Byte → Int
  | [], [] => 0
  | [], _ :: _ => -1
  | _ :: _, [] => 1
  | a :: as, b :: bs => if a < b then -1 else if b < a then 1 else bytesCompare as bs

/-! ## `io`, `bytes.Buffer`, `encoding/binary` -/

/-- An `io.Reader`: the bytes it still delivers and the error its `Read`
returns once they are used up. -/
structure Reader where
  avail : List Byte
  fail : GoError
  deriving DecidableEq

/-- A `bytes.Buffer` after `WriteString(s)`: delivers `s`, then `io.EOF`. -/
def bufferOf (s : GoString) : Reader := { avail := s, fail := GoError.EOF }

/-- Function `io.ReadFull` into a buffer of `n` bytes. -/
def ioReadFull (r : Reader) (n : Nat) : Except GoError (Arr n) :=
  if h : n ≤ r.avail.length then
    Except.ok ⟨r.avail.take n, by simp [List.length_take, h]⟩
  else if 0 < r.avail.length ∧ r.fail = GoError.EOF then
    Except.error GoError.ErrUnexpectedEOF
  else
    Except.error r.fail

/-- Conversion `uint64(t)` of an `int64`. -/
def uint64 (t : Int) : Nat := (t % 2 ^ 64).toNat

/-- Function `binary.BigEndian.PutUint64` into a fresh 8-byte slice. -/
def PutUint64 (v : Nat) : List Byte :=
  [v / 2 ^ 56 % 256, v / 2 ^ 48 % 256, v / 2 ^ 40 % 256, v / 2 ^ 32 % 256,
   v / 2 ^ 24 % 256, v / 2 ^ 16 % 256, v / 2 ^ 8 % 256, v % 256]

/-! ## Package constants, ed25519, the world -/

/-- What the builder takes from outside this file: the two package constants
and the ed25519 library (`publicKey` is the curve arithmetic that turns a
32-byte seed into a public key, `Sign` is `ed.Sign`). -/
structure Pkg where
  ProofOfWorkLength : Nat
  ProofOfWorkChainID : List Byte
  publicKey : Arr 32 → Arr 32
  Sign : Arr 64 → List Byte → Arr 64

/-- What a call reads from its surroundings: the state of `crypto/rand.Reader`,
the successive readings of the wall clock in seconds (`now 0` first), and the
bytes behind the end of the slice that `hex.DecodeString` hands back. -/
structure World where
  rand : Reader
  now : Nat → Int
  spare : List Byte

/-- Function `ed.GenerateKey`: 32 bytes of seed read with `io.ReadFull`; the
private key is the seed followed by the public key. -/
def GenerateKey (p : Pkg) (rand : Reader) : Except GoError (Arr 32 × Arr 64) :=
  match ioReadFull rand 32 with
  | Except.error e => Except.error e
  | Except.ok seed =>
    Except.ok (p.publicKey seed,
      ⟨seed.1 ++ (p.publicKey seed).1, by simp [seed.2, (p.publicKey seed).2]⟩)

/-- Function `hex.DecodeString`: the decoded slice and the error. -/
def hexDecodeString (w : World) (s : GoString) : Slice × Option GoError :=
  ({ elems := (hexDecode s).1, spare := w.spare }, (hexDecode s).2)

/-! ## The record -/

/-- The record `BlockSigningKey`. -/
structure BlockSigningKey where
  version : List Byte
  message : List Byte
  rootChainID : List Byte
  newPubKey : List Byte
  timestamp : List Byte
  identityPreimage : List Byte
  signiture : List Byte
  subchain : GoString
  deriving DecidableEq

/-- The type `factom.Entry`, as far as `GetEntry` fills it. -/
structure Entry where
  ChainID : GoString
  Content : List Byte
  ExtIDs : List (List Byte)
  deriving DecidableEq

/-- Method `versionToTimestamp`: the signed bytes. -/
def versionToTimestamp (b : BlockSigningKey) : List Byte :=
  b.version ++ b.message ++ b.rootChainID ++ b.newPubKey ++ b.timestamp

/-- Method `extIdList`. -/
def extIdList (b : BlockSigningKey) : List (List Byte) :=
  [b.version, b.message, b.rootChainID, b.newPubKey, b.timestamp,
   b.identityPreimage, b.signiture]

/-- Method `GetEntry`. -/
def GetEntry (b : BlockSigningKey) : Entry :=
  { ChainID := b.subchain, Content := [], ExtIDs := extIdList b }

/-- The three results of a build: `(*BlockSigningKey, []byte, error)`, `none`
for `nil`. -/
abbrev Ret := Option BlockSigningKey × Option (List Byte) × Option GoError

/-- The error of the prefix check. -/
def rootChainIDInvalid : GoError :=
  GoError.New "Error making a new block signing key: Root ChainID invalid"

/-- Function `MakeBlockSigningKeyFixed`. -/
def MakeBlockSigningKeyFixed (p : Pkg) (w : World) (rootChainIDStr subchainID : GoString)
    (privateKey : Arr 64) (random : Bool) : Run Ret :=
  match (hexDecodeString w rootChainIDStr).2 with
  | some err => Run.done (none, none, some err)
  | none =>
    let rootChainID := (hexDecodeString w rootChainIDStr).1
    match rootChainID.upTo p.ProofOfWorkLength,
        sliceTo p.ProofOfWorkChainID p.ProofOfWorkLength with
    | some x, some y =>
      if bytesCompare x y ≠ 0 then
        Run.done (none, none, some rootChainIDInvalid)
      else
        match GenerateKey p w.rand with
        | Except.error err => Run.done (none, none, some err)
        | Except.ok (pub, priv) =>
          match (if !random then GenerateKey p (bufferOf rootChainIDStr)
                 else Except.ok (pub, priv)) with
          | Except.error err => Run.done (none, none, some err)
          | Except.ok (pub, priv) =>
            let b : BlockSigningKey :=
              { version := [0x00]
                message := str "New Block Signing Key"
                rootChainID := rootChainID.elems
                newPubKey := pub.1.take 32
                timestamp := PutUint64 (uint64 (w.now 0))
                identityPreimage := [0x01] ++ privateKey.1.drop 32
                signiture := []
                subchain := subchainID }
            Run.done (some { b with signiture := (p.Sign privateKey (versionToTimestamp b)).1 },
              some priv.1, none)
    | _, _ => Run.panic

/-- Function `MakeBlockSigningKey`. -/
def MakeBlockSigningKey (p : Pkg) (w : World) (rootChainIDStr subchainID : GoString)
    (privateKey : Arr 64) : Run Ret :=
  MakeBlockSigningKeyFixed p w rootChainIDStr subchainID privateKey false

/-- Function `MakeBlockSigningKeySeeded`. The clock is read a second time
(`now 1`) after the inner build has read it. -/
def MakeBlockSigningKeySeeded (p : Pkg) (w : World) (rootChainIDStr subchainID : GoString)
    (privateKey : Arr 64) (signingkey : Arr 64) : Run Ret :=
  match MakeBlockSigningKeyFixed p w rootChainIDStr subchainID privateKey false with
  | Run.panic => Run.panic
  | Run.done (_, _, some err) => Run.done (none, none, some err)
  | Run.done (none, _, none) => Run.panic
  | Run.done (some block, _, none) =>
    let b : BlockSigningKey :=
      { block with
        newPubKey := signingkey.1.drop 32
        timestamp := PutUint64 (uint64 (w.now 1))
        identityPreimage := [0x01] ++ privateKey.1.drop 32 }
    Run.done (some { b with signiture := (p.Sign privateKey (versionToTimestamp b)).1 },
      some (signingkey.1.take 32), none)

/-- The entry points of the builder, with the arguments that tell them apart. -/
inductive BuildOp where
  /-- Call of `MakeBlockSigningKeyFixed` with this `random`. -/
  | Fixed (random : Bool)
  /-- Call of `MakeBlockSigningKey`. -/
  | Default
  /-- Call of `MakeBlockSigningKeySeeded` with this `signingkey`. -/
  | Seeded (signingkey : Arr 64)

/-- Run one entry point. -/
def BuildOp.run (op : BuildOp) (p : Pkg) (w : World) (rootChainIDStr subchainID : GoString)
    (privateKey : Arr 64) : Run Ret :=
  match op with
  | BuildOp.Fixed random => MakeBlockSigningKeyFixed p w rootChainIDStr subchainID privateKey random
  | BuildOp.Default => MakeBlockSigningKey p w rootChainIDStr subchainID privateKey
  | BuildOp.Seeded signingkey =>
    MakeBlockSigningKeySeeded p w rootChainIDStr subchainID privateKey signingkey

/-- The `random` flag under which an entry point hands back a key pair of the
key generator: `MakeBlockSigningKey` passes `false`; `MakeBlockSigningKeySeeded`
hands back the supplied key pair instead. -/
def BuildOp.generates : BuildOp → Option Bool
  | BuildOp.Fixed random => some random
  | BuildOp.Default => some false
  | BuildOp.Seeded _ => none

/-- Which reading of the clock ends up in the record: the first one for
`MakeBlockSigningKeyFixed` and `MakeBlockSigningKey`, the second one for
`MakeBlockSigningKeySeeded`, which reads the clock again after the inner build. -/
def BuildOp.clockReading : BuildOp → Nat
  | BuildOp.Fixed _ => 0
  | BuildOp.Default => 0
  | BuildOp.Seeded _ => 1

/-- The number that a sequence of bytes spells in big-endian order (on 8 bytes:
`binary.BigEndian.Uint64`). -/
def Uint64 (b : List Byte) : Nat := b.foldl (fun acc x => acc * 256 + x) 0

/-- The fields of a record built by `MakeBlockSigningKeyFixed` from the key
pair `pub`. -/
def FixedFields (p : Pkg) (w : World) (rootChainIDStr subchainID : GoString)
    (privateKey : Arr 64) (pub : Arr 32) (b : BlockSigningKey) : Prop :=
  b.version = [0x00] ∧ b.message = str "New Block Signing Key" ∧
  b.rootChainID = (hexDecode rootChainIDStr).1 ∧ b.newPubKey = pub.1 ∧
  b.timestamp = PutUint64 (uint64 (w.now 0)) ∧
  b.identityPreimage = 0x01 :: privateKey.1.drop 32 ∧
  b.signiture = (p.Sign privateKey (versionToTimestamp b)).1 ∧
  b.subchain = subchainID

/-- The fields of a record built by `MakeBlockSigningKeySeeded` on top of the
record `b0` of the inner build. -/
def SeededFields (p : Pkg) (w : World) (privateKey signingkey : Arr 64)
    (b0 b : BlockSigningKey) : Prop :=
  b.version = b0.version ∧ b.message = b0.message ∧ b.rootChainID = b0.rootChainID ∧
  b.newPubKey = signingkey.1.drop 32 ∧
  b.timestamp = PutUint64 (uint64 (w.now 1)) ∧
  b.identityPreimage = 0x01 :: privateKey.1.drop 32 ∧
  b.signiture = (p.Sign privateKey (versionToTimestamp b)).1 ∧
  b.subchain = b0.subchain

/-! ## Sample data -/

/-- Sample package: the three-byte tag 0x88 0x88 0x88, and stand-ins for the
curve arithmetic and the signer. -/
def demoPkg : Pkg :=
  { ProofOfWorkLength := 3
    ProofOfWorkChainID := [0x88, 0x88, 0x88]
    publicKey := fun s => ⟨s.1.map (fun x => (x + 1) % 256), by simp [s.2]⟩
    Sign := fun k m => ⟨List.replicate 64 ((k.1.sum + m.sum) % 256), by simp⟩ }

/-- Sample world: 32 random bytes available, clock at 1500000000 seconds, no
spare capacity behind the decoded slice. -/
def demoWorld : World :=
  { rand := { avail := List.replicate 32 7, fail := GoError.other 0 }
    now := fun n => 1500000000 + n
    spare := [] }

/-- Sample world that differs from `demoWorld` in the random bytes, the clock
and the spare capacity. -/
def otherWorld : World :=
  { rand := { avail := List.range 40, fail := GoError.EOF }
    now := fun n => 1600000000 + 5 * n
    spare := [0, 0, 0, 0] }

/-- Sample root chain ID: 64 hex digits, `888888` followed by zeros. -/
def demoRoot : GoString := str "888888" ++ List.replicate 58 48

/-- Sample root chain ID of three bytes: `888888`. -/
def shortRoot : GoString := str "888888"

/-- Sample root chain ID written with lowercase digits: `888888aa`, then zeros. -/
def lowerRoot : GoString := str "888888aa" ++ List.replicate 56 48

/-- The same root chain ID written with uppercase digits: `888888AA`, then zeros. -/
def upperRoot : GoString := str "888888AA" ++ List.replicate 56 48

/-- Sample world whose random reader delivers nothing and fails. -/
def drainedWorld : World :=
  { rand := { avail := [], fail := GoError.other 0 }
    now := fun n => 1500000000 + n
    spare := [] }

/-- Sample authorizing key: the bytes 0 to 63. -/
def demoKey : Arr 64 := ⟨List.range 64, by simp⟩

/-- Sample supplied keypair: 32 bytes of 1, then 32 bytes of 2. -/
def demoSigningKey : Arr 64 := ⟨List.replicate 32 1 ++ List.replicate 32 2, by simp⟩

/-! ## What a returning build has computed -/

theorem bytesCompare_eq_zero (a b : List Nat) : bytesCompare a b = 0 ↔ a = b := by
  induction a generalizing b with
  | nil => cases b <;> simp [bytesCompare]
  | cons x xs ih =>
    cases b with
    | nil => simp [bytesCompare]
    | cons y ys =>
      rcases Nat.lt_trichotomy x y with h | h | h
      · have hne : x ≠ y := Nat.ne_of_lt h
        simp [bytesCompare, h, hne]
      · subst h
        simp [bytesCompare, ih]
      · have hne : x ≠ y := Nat.ne_of_gt h
        have hn : ¬ x < y := Nat.not_lt.2 (Nat.le_of_lt h)
        simp [bytesCompare, h, hn, hne]

theorem fixed_done_cases {p : Pkg} {w : World} {root sub : GoString} {key : Arr 64}
    {random : Bool} {r : Ret}
    (h : MakeBlockSigningKeyFixed p w root sub key random = Run.done r) :
    (∃ e, r = (none, none, some e)) ∨
    (∃ pub priv b, (hexDecode root).2 = none ∧
      (∃ kp, GenerateKey p w.rand = Except.ok kp) ∧
      GenerateKey p (if random then w.rand else bufferOf root) = Except.ok (pub, priv) ∧
      sliceTo p.ProofOfWorkChainID p.ProofOfWorkLength
        = Slice.upTo ⟨(hexDecode root).1, w.spare⟩ p.ProofOfWorkLength ∧
      FixedFields p w root sub key pub b ∧
      r = (some b, some priv.1, none)) := by
  unfold MakeBlockSigningKeyFixed at h
  simp only [hexDecodeString] at h
  cases hd : (hexDecode root).2 with
  | some e => rw [hd] at h; left; exact ⟨_, (Run.done.inj h).symm⟩
  | none =>
    rw [hd] at h
    cases hx : Slice.upTo ⟨(hexDecode root).1, w.spare⟩ p.ProofOfWorkLength with
    | none => simp [hx] at h
    | some x =>
      cases hy : sliceTo p.ProofOfWorkChainID p.ProofOfWorkLength with
      | none => simp [hx, hy] at h
      | some y =>
        simp only [hx, hy] at h
        by_cases hc : bytesCompare x y = 0
        · have hxy : x = y := (bytesCompare_eq_zero x y).1 hc
          simp only [hc, ne_eq, not_true_eq_false, if_false] at h
          cases hg0 : GenerateKey p w.rand with
          | error e => rw [hg0] at h; left; exact ⟨_, (Run.done.inj h).symm⟩
          | ok kp0 =>
            obtain ⟨pub0, priv0⟩ := kp0
            rw [hg0] at h
            dsimp only at h
            have hsel : (if (!random) = true then GenerateKey p (bufferOf root)
                  else Except.ok (pub0, priv0))
                = GenerateKey p (if random then w.rand else bufferOf root) := by
              cases random <;> simp [hg0]
            rw [hsel] at h
            cases hg : GenerateKey p (if random then w.rand else bufferOf root) with
            | error e => rw [hg] at h; left; exact ⟨_, (Run.done.inj h).symm⟩
            | ok kp =>
              obtain ⟨pub, priv⟩ := kp
              rw [hg] at h
              right
              refine ⟨pub, priv, _, ?_, ?_, ?_, ?_, ?_, (Run.done.inj h).symm⟩
              · rfl
              · exact ⟨_, rfl⟩
              · rfl
              · rw [hxy]
              · simp [FixedFields, versionToTimestamp, pub.2]
        · simp only [ne_eq, hc, not_false_eq_true, if_true] at h
          left; exact ⟨_, (Run.done.inj h).symm⟩

theorem seeded_done_cases {p : Pkg} {w : World} {root sub : GoString} {key sk : Arr 64}
    {r : Ret}
    (h : MakeBlockSigningKeySeeded p w root sub key sk = Run.done r) :
    (∃ e, r = (none, none, some e)) ∨
    (∃ b0 k0 b, MakeBlockSigningKeyFixed p w root sub key false = Run.done (some b0, k0, none) ∧
      SeededFields p w key sk b0 b ∧
      r = (some b, some (sk.1.take 32), none)) := by
  unfold MakeBlockSigningKeySeeded at h
  cases hf : MakeBlockSigningKeyFixed p w root sub key false with
  | panic => simp [hf] at h
  | done r0 =>
    obtain ⟨ob, ok, oe⟩ := r0
    rw [hf] at h
    cases ob with
    | none =>
      cases oe with
      | some e => dsimp only at h; left; exact ⟨_, (Run.done.inj h).symm⟩
      | none => simp at h
    | some b0 =>
      cases oe with
      | some e => dsimp only at h; left; exact ⟨_, (Run.done.inj h).symm⟩
      | none =>
        dsimp only at h
        right
        refine ⟨b0, ok, _, rfl, ?_, (Run.done.inj h).symm⟩
        simp [SeededFields, versionToTimestamp]

theorem hexDecode_error_iff : ∀ s : List Nat,
    (hexDecode s).2 ≠ none ↔ (s.length % 2 = 1 ∨ ∃ c ∈ s, fromHexChar c = none)
  | [] => by simp [hexDecode]
  | [p] => by cases hp : fromHexChar p <;> simp [hexDecode, hp]
  | p :: q :: rest => by
    have ih := hexDecode_error_iff rest
    cases hp : fromHexChar p with
    | none => simp [hexDecode, hp]
    | some a =>
      cases hq : fromHexChar q with
      | none => simp [hexDecode, hp, hq]
      | some b =>
        simp only [hexDecode, hp, hq, ih, List.length_cons, List.mem_cons]
        constructor
        · rintro (h | ⟨c, hc, hn⟩)
          · left; omega
          · right; exact ⟨c, Or.inr (Or.inr hc), hn⟩
        · rintro (h | ⟨c, hc | hc | hc, hn⟩)
          · left; omega
          · subst hc; simp [hp] at hn
          · subst hc; simp [hq] at hn
          · right; exact ⟨c, hc, hn⟩

theorem hexDecode_length : ∀ s : List Nat, (hexDecode s).2 = none →
    2 * (hexDecode s).1.length = s.length
  | [] => by simp [hexDecode]
  | [p] => by cases hp : fromHexChar p <;> simp [hexDecode, hp]
  | p :: q :: rest => by
    have ih := hexDecode_length rest
    cases hp : fromHexChar p with
    | none => simp [hexDecode, hp]
    | some a =>
      cases hq : fromHexChar q with
      | none => simp [hexDecode, hp, hq]
      | some b =>
        simp only [hexDecode, hp, hq, List.length_cons]
        intro h
        have := ih h
        omega

/-- The signature and the signed bytes of every record a build returns. -/
theorem run_signature {op : BuildOp} {p : Pkg} {w : World} {root sub : GoString}
    {key : Arr 64} {b : BlockSigningKey} {k : Option (List Byte)}
    (h : op.run p w root sub key = Run.done (some b, k, none)) :
    b.signiture = (p.Sign key (versionToTimestamp b)).1 := by
  cases op with
  | Fixed random =>
    rcases fixed_done_cases h with ⟨e, he⟩ | ⟨pub, priv, b1, -, -, -, -, hf, hr⟩
    · simp at he
    · simp only [Prod.mk.injEq, Option.some.injEq] at hr
      rw [hr.1]; exact hf.2.2.2.2.2.2.1
  | Default =>
    rcases fixed_done_cases h with ⟨e, he⟩ | ⟨pub, priv, b1, -, -, -, -, hf, hr⟩
    · simp at he
    · simp only [Prod.mk.injEq, Option.some.injEq] at hr
      rw [hr.1]; exact hf.2.2.2.2.2.2.1
  | Seeded sk =>
    rcases seeded_done_cases h with ⟨e, he⟩ | ⟨b0, k0, b1, -, hf, hr⟩
    · simp at he
    · simp only [Prod.mk.injEq, Option.some.injEq] at hr
      rw [hr.1]; exact hf.2.2.2.2.2.2.1

/-- An error of `MakeBlockSigningKeyFixed` that does not depend on `random`
is the result of every entry point. -/
theorem run_of_fixed_error {p : Pkg} {w : World} {root sub : GoString} {key : Arr 64}
    {e : GoError}
    (h : ∀ random, MakeBlockSigningKeyFixed p w root sub key random
      = Run.done (none, none, some e)) (op : BuildOp) :
    op.run p w root sub key = Run.done (none, none, some e) := by
  cases op with
  | Fixed random => exact h random
  | Default => exact h false
  | Seeded sk => simp [BuildOp.run, MakeBlockSigningKeySeeded, h false]

/-- What an entry point that hands back a generated key pair has computed. -/
theorem generated_done {op : BuildOp} {random : Bool} {p : Pkg} {w : World}
    {root sub : GoString} {key : Arr 64} {b : BlockSigningKey} {k : Option (List Byte)}
    (hop : op.generates = some random)
    (h : op.run p w root sub key = Run.done (some b, k, none)) :
    ∃ pub priv, GenerateKey p (if random then w.rand else bufferOf root) = Except.ok (pub, priv) ∧
      FixedFields p w root sub key pub b ∧ k = some priv.1 := by
  have hfix : MakeBlockSigningKeyFixed p w root sub key random
      = Run.done (some b, k, none) := by
    cases op with
    | Fixed r =>
      simp only [BuildOp.generates, Option.some.injEq] at hop
      subst hop; exact h
    | Default =>
      simp only [BuildOp.generates, Option.some.injEq] at hop
      subst hop; exact h
    | Seeded sk => simp [BuildOp.generates] at hop
  rcases fixed_done_cases hfix with ⟨e, he⟩ | ⟨pub, priv, b1, -, -, hg, -, hf, hr⟩
  · simp at he
  · simp only [Prod.mk.injEq, Option.some.injEq] at hr
    exact ⟨pub, priv, hg, by rw [hr.1]; exact hf, hr.2.1⟩

/-- What every returning entry point has put into the record. -/
theorem run_done_fields {op : BuildOp} {p : Pkg} {w : World} {root sub : GoString}
    {key : Arr 64} {b : BlockSigningKey} {k : Option (List Byte)}
    (h : op.run p w root sub key = Run.done (some b, k, none)) :
    (hexDecode root).2 = none ∧
    b.version = [0x00] ∧ b.message = str "New Block Signing Key" ∧
    b.rootChainID = (hexDecode root).1 ∧ b.newPubKey.length = 32 ∧
    (∃ n, b.timestamp = PutUint64 (uint64 (w.now n))) ∧
    b.identityPreimage = 0x01 :: key.1.drop 32 ∧
    b.signiture = (p.Sign key (versionToTimestamp b)).1 ∧
    b.subchain = sub := by
  have fixed : ∀ {random b0 k0},
      MakeBlockSigningKeyFixed p w root sub key random = Run.done (some b0, k0, none) →
      (hexDecode root).2 = none ∧ ∃ pub, FixedFields p w root sub key pub b0 := by
    intro random b0 k0 h0
    rcases fixed_done_cases h0 with ⟨e, he⟩ | ⟨pub, priv, b1, hd, -, -, -, hf, hr⟩
    · simp at he
    · simp only [Prod.mk.injEq, Option.some.injEq] at hr
      exact ⟨hd, pub, by rw [hr.1]; exact hf⟩
  have ofFixed : ∀ {b0 : BlockSigningKey} {pub : Arr 32},
      FixedFields p w root sub key pub b0 →
      b0.version = [0x00] ∧ b0.message = str "New Block Signing Key" ∧
      b0.rootChainID = (hexDecode root).1 ∧ b0.newPubKey.length = 32 ∧
      (∃ n, b0.timestamp = PutUint64 (uint64 (w.now n))) ∧
      b0.identityPreimage = 0x01 :: key.1.drop 32 ∧
      b0.signiture = (p.Sign key (versionToTimestamp b0)).1 ∧
      b0.subchain = sub := by
    intro b0 pub hf
    obtain ⟨h1, h2, h3, h4, h5, h6, h7, h8⟩ := hf
    exact ⟨h1, h2, h3, by rw [h4]; exact pub.2, ⟨0, h5⟩, h6, h7, h8⟩
  cases op with
  | Fixed random =>
    obtain ⟨hd, pub, hf⟩ := fixed h
    exact ⟨hd, ofFixed hf⟩
  | Default =>
    obtain ⟨hd, pub, hf⟩ := fixed h
    exact ⟨hd, ofFixed hf⟩
  | Seeded sk =>
    rcases seeded_done_cases h with ⟨e, he⟩ | ⟨b0, k0, b1, h0, hs, hr⟩
    · simp at he
    · simp only [Prod.mk.injEq, Option.some.injEq] at hr
      obtain ⟨hd, pub, hf⟩ := fixed h0
      obtain ⟨f1, f2, f3, -, -, -, -, f8⟩ := hf
      obtain ⟨s1, s2, s3, s4, s5, s6, s7, s8⟩ := hs
      rw [hr.1]
      refine ⟨hd, s1.trans f1, s2.trans f2, s3.trans f3, ?_, ⟨1, s5⟩, s6, s7, s8.trans f8⟩
      rw [s4, List.length_drop, sk.2]

/-! ## The claims -/

/-- C1: for every successful build by any entry point, the signature field of
the returned record is `Sign(privateKey, version ++ message ++ rootChainID ++
newPubKey ++ timestamp)` over the fields of that same record; so under any
scheme in which `Verify (pub k) m (Sign k m)` holds, the signature verifies
against the bytes rebuilt from the record. -/
theorem signature_covers_own_fields (op : BuildOp) (p : Pkg) (w : World)
    (root sub : GoString) (key : Arr 64) (b : BlockSigningKey) (k : Option (List Byte))
    (h : op.run p w root sub key = Run.done (some b, k, none)) :
    b.signiture = (p.Sign key (b.version ++ b.message ++ b.rootChainID ++ b.newPubKey
      ++ b.timestamp)).1 ∧
    versionToTimestamp b = b.version ++ b.message ++ b.rootChainID ++ b.newPubKey
      ++ b.timestamp ∧
    ∀ (Verify : Arr 32 → List Byte → List Byte → Bool) (pubOf : Arr 64 → Arr 32),
      (∀ sk m, Verify (pubOf sk) m (p.Sign sk m).1 = true) →
      Verify (pubOf key) (versionToTimestamp b) b.signiture = true := by
  have hs := run_signature h
  refine ⟨hs, rfl, ?_⟩
  intro Verify pubOf hv
  rw [hs]
  exact hv key _

theorem signature_covers_own_fields_witness :
    ∃ b k, (BuildOp.Seeded demoSigningKey).run demoPkg demoWorld demoRoot (str "sub") demoKey
        = Run.done (some b, k, none) ∧
      b.newPubKey = List.replicate 32 2 ∧
      b.signiture = (demoPkg.Sign demoKey (b.version ++ b.message ++ b.rootChainID
        ++ b.newPubKey ++ b.timestamp)).1 :=
  ⟨_, _, rfl, rfl,
    (signature_covers_own_fields (BuildOp.Seeded demoSigningKey) demoPkg demoWorld demoRoot
      (str "sub") demoKey _ _ rfl).1⟩

/-- The tag check of `MakeBlockSigningKeyFixed` on a decoded identifier that is
long enough and differs from the tag. -/
theorem fixed_tag_mismatch {p : Pkg} {w : World} {root sub : GoString} {key : Arr 64}
    (hdec : (hexDecode root).2 = none)
    (hlen : p.ProofOfWorkLength ≤ (hexDecode root).1.length)
    (hconst : p.ProofOfWorkLength ≤ p.ProofOfWorkChainID.length)
    (hne : (hexDecode root).1.take p.ProofOfWorkLength
      ≠ p.ProofOfWorkChainID.take p.ProofOfWorkLength) (random : Bool) :
    MakeBlockSigningKeyFixed p w root sub key random
      = Run.done (none, none, some rootChainIDInvalid) := by
  have hx : Slice.upTo ⟨(hexDecode root).1, w.spare⟩ p.ProofOfWorkLength
      = some ((hexDecode root).1.take p.ProofOfWorkLength) := by
    have hle : p.ProofOfWorkLength ≤ (hexDecode root).1.length + w.spare.length :=
      Nat.le_trans hlen (Nat.le_add_right _ _)
    simp only [Slice.upTo, hle, if_true]
    rw [List.take_append_of_le_length hlen]
  have hy : sliceTo p.ProofOfWorkChainID p.ProofOfWorkLength
      = some (p.ProofOfWorkChainID.take p.ProofOfWorkLength) := by
    simp only [sliceTo, hconst, if_true]
  have hc : bytesCompare ((hexDecode root).1.take p.ProofOfWorkLength)
      (p.ProofOfWorkChainID.take p.ProofOfWorkLength) ≠ 0 :=
    fun h0 => hne ((bytesCompare_eq_zero _ _).1 h0)
  unfold MakeBlockSigningKeyFixed
  simp only [hexDecodeString, hdec, hx, hy]
  rw [if_pos hc]

/-- C2: when `rootChainIDStr` decodes to at least `ProofOfWorkLength` bytes
whose first `ProofOfWorkLength` bytes differ from those of `ProofOfWorkChainID`
(a constant of at least that many bytes), every entry point returns the error
"Error making a new block signing key: Root ChainID invalid" with a nil record
and nil key material, whatever the other arguments, the clock and the random
reader are. -/
theorem root_tag_mismatch_rejected (op : BuildOp) (p : Pkg) (w : World)
    (root sub : GoString) (key : Arr 64)
    (hdec : (hexDecode root).2 = none)
    (hlen : p.ProofOfWorkLength ≤ (hexDecode root).1.length)
    (hconst : p.ProofOfWorkLength ≤ p.ProofOfWorkChainID.length)
    (hne : (hexDecode root).1.take p.ProofOfWorkLength
      ≠ p.ProofOfWorkChainID.take p.ProofOfWorkLength) :
    op.run p w root sub key
      = Run.done (none, none,
          some (GoError.New "Error making a new block signing key: Root ChainID invalid")) :=
  run_of_fixed_error (fixed_tag_mismatch hdec hlen hconst hne) op

theorem root_tag_mismatch_rejected_witness :
    (hexDecode (str "888877aa")).1 = [0x88, 0x88, 0x77, 0xaa] ∧
    (BuildOp.Seeded demoSigningKey).run demoPkg demoWorld (str "888877aa") (str "sub") demoKey
      = Run.done (none, none,
          some (GoError.New "Error making a new block signing key: Root ChainID invalid")) :=
  ⟨by decide,
    root_tag_mismatch_rejected (BuildOp.Seeded demoSigningKey) demoPkg demoWorld
      (str "888877aa") (str "sub") demoKey (by decide) (by decide) (by decide) (by decide)⟩

/-- C3 (the code at a failing input): when the decoded identifier together
with the spare capacity behind it is shorter than `ProofOfWorkLength`, the slice
expression `rootChainID[:ProofOfWorkLength]` is out of range and
`MakeBlockSigningKeyFixed` panics; it returns no validation error. The empty
string, whose decoded slice has capacity 0, is such an input. -/
theorem fixed_short_root_panics (p : Pkg) (w : World) (root sub : GoString) (key : Arr 64)
    (random : Bool) (hdec : (hexDecode root).2 = none)
    (hshort : (hexDecode root).1.length + w.spare.length < p.ProofOfWorkLength) :
    MakeBlockSigningKeyFixed p w root sub key random = Run.panic := by
  have hx : Slice.upTo ⟨(hexDecode root).1, w.spare⟩ p.ProofOfWorkLength = none := by
    simp only [Slice.upTo, Nat.not_le.2 hshort, if_false]
  unfold MakeBlockSigningKeyFixed
  simp only [hexDecodeString, hdec, hx]

theorem fixed_short_root_panics_witness :
    (hexDecode []).2 = none ∧
    MakeBlockSigningKeyFixed demoPkg demoWorld [] (str "sub") demoKey false = Run.panic :=
  ⟨rfl, fixed_short_root_panics demoPkg demoWorld [] (str "sub") demoKey false rfl
    (by decide)⟩

/-- C4: when `rootChainIDStr` has odd length or holds a byte that is no hex
digit, decoding fails with an error `e`, and every entry point returns
`(nil, nil, e)`; the result is the same for every tag constant, key generator,
signer, random reader, clock and key, none of which is consulted. -/
theorem invalid_hex_rejected (root : GoString)
    (hbad : root.length % 2 = 1 ∨ ∃ c ∈ root, fromHexChar c = none) :
    ∃ e, (hexDecode root).2 = some e ∧
      ∀ (op : BuildOp) (p : Pkg) (w : World) (sub : GoString) (key : Arr 64),
        op.run p w root sub key = Run.done (none, none, some e) := by
  have hne : (hexDecode root).2 ≠ none := (hexDecode_error_iff root).2 hbad
  cases he : (hexDecode root).2 with
  | none => exact absurd he hne
  | some e =>
    refine ⟨e, rfl, ?_⟩
    intro op p w sub key
    apply run_of_fixed_error
    intro random
    unfold MakeBlockSigningKeyFixed
    simp only [hexDecodeString, he]

theorem invalid_hex_rejected_witness :
    ∃ e, (hexDecode (str "8888zz")).2 = some e ∧
      ∀ (op : BuildOp) (p : Pkg) (w : World) (sub : GoString) (key : Arr 64),
        op.run p w (str "8888zz") sub key = Run.done (none, none, some e) :=
  invalid_hex_rejected (str "8888zz") (Or.inr ⟨122, by decide, by decide⟩)

/-- C5: for every record, `extIdList` is the list of exactly seven byte
strings version, message, rootChainID, newPubKey, timestamp, identityPreimage,
signiture, in that order, each a separate element. -/
theorem extIdList_seven_fields (b : BlockSigningKey) :
    extIdList b = [b.version, b.message, b.rootChainID, b.newPubKey, b.timestamp,
      b.identityPreimage, b.signiture] ∧
    (extIdList b).length = 7 :=
  ⟨rfl, rfl⟩

/-- C6 as stated fails: `MakeBlockSigningKeyFixed` in random mode accepts the
six hex digits `888888`, and the record it returns has a `rootChainID` of 3
bytes, so the field lengths are 1, 21, 3, 32, 8, 33, 64. -/
theorem field_lengths_counterexample :
    ∃ b k, MakeBlockSigningKeyFixed demoPkg demoWorld shortRoot (str "sub") demoKey true
        = Run.done (some b, k, none) ∧
      (extIdList b).map List.length = [1, 21, 3, 32, 8, 33, 64] ∧
      (extIdList b).map List.length ≠ [1, 21, 32, 32, 8, 33, 64] :=
  ⟨_, _, rfl, by decide, by decide⟩

/-- C6 (amended): for every record returned by a successful build by any entry
point, the field list has exactly 7 fields, of lengths 1, 21 (the length of
"New Block Signing Key"), the number of decoded bytes of `rootChainIDStr` (half
its length), 32, 8, 33 and 64; field 2 is 32 bytes exactly when
`rootChainIDStr` has 64 hex digits. -/
theorem field_lengths (op : BuildOp) (p : Pkg) (w : World) (root sub : GoString)
    (key : Arr 64) (b : BlockSigningKey) (k : Option (List Byte))
    (h : op.run p w root sub key = Run.done (some b, k, none)) :
    (extIdList b).length = 7 ∧
    (extIdList b).map List.length
      = [1, (str "New Block Signing Key").length, root.length / 2, 32, 8, 33, 64] ∧
    (str "New Block Signing Key").length = 21 ∧
    (b.rootChainID.length = 32 ↔ root.length = 64) := by
  obtain ⟨hd, h1, h2, h3, h4, ⟨n, h5⟩, h6, h7, -⟩ := run_done_fields h
  have hlen := hexDecode_length root hd
  have hroot : b.rootChainID.length = root.length / 2 := by rw [h3]; omega
  have hpre : b.identityPreimage.length = 33 := by
    rw [h6, List.length_cons, List.length_drop, key.2]
  have hsig : b.signiture.length = 64 := by rw [h7]; exact (p.Sign key _).2
  have hts : b.timestamp.length = 8 := by rw [h5]; rfl
  refine ⟨rfl, ?_, rfl, ?_⟩
  · simp only [extIdList, List.map_cons, List.map_nil, hroot, hpre, hsig, hts, h4, h1, h2,
      List.length_singleton]
  · rw [h3]; omega

theorem field_lengths_witness :
    ∃ b k, (BuildOp.Fixed true).run demoPkg demoWorld shortRoot (str "sub") demoKey
        = Run.done (some b, k, none) ∧
      (extIdList b).map List.length
        = [1, (str "New Block Signing Key").length, shortRoot.length / 2, 32, 8, 33, 64] :=
  ⟨_, _, rfl,
    (field_lengths (BuildOp.Fixed true) demoPkg demoWorld shortRoot (str "sub") demoKey
      _ _ rfl).2.1⟩

/-- C7 as stated fails: with the supplied key pair 32 bytes of 1 followed by 32
bytes of 2, the record of `MakeBlockSigningKeySeeded` has `newPubKey` equal to
the 32 bytes of 2, not to the first 32 bytes of the key pair. -/
theorem seeded_newPubKey_counterexample :
    ∃ b k, MakeBlockSigningKeySeeded demoPkg demoWorld demoRoot (str "sub") demoKey
        demoSigningKey = Run.done (some b, k, none) ∧
      b.newPubKey = List.replicate 32 2 ∧
      b.newPubKey ≠ demoSigningKey.1.take 32 :=
  ⟨_, _, rfl, by decide, by decide⟩

/-- C7 (amended): for every successful `MakeBlockSigningKeySeeded` call with a
supplied 64-byte key pair `signingkey`, the `newPubKey` field of the returned
record is exactly the last 32 bytes of `signingkey` (`signingkey[32:]`). -/
theorem seeded_newPubKey (p : Pkg) (w : World) (root sub : GoString) (key signingkey : Arr 64)
    (b : BlockSigningKey) (k : Option (List Byte))
    (h : MakeBlockSigningKeySeeded p w root sub key signingkey = Run.done (some b, k, none)) :
    b.newPubKey = signingkey.1.drop 32 ∧ b.newPubKey.length = 32 := by
  rcases seeded_done_cases h with ⟨e, he⟩ | ⟨b0, k0, b1, -, hs, hr⟩
  · simp at he
  · simp only [Prod.mk.injEq, Option.some.injEq] at hr
    rw [hr.1]
    refine ⟨hs.2.2.2.1, ?_⟩
    rw [hs.2.2.2.1, List.length_drop, signingkey.2]

theorem seeded_newPubKey_witness :
    ∃ b k, MakeBlockSigningKeySeeded demoPkg demoWorld demoRoot (str "sub") demoKey
        demoSigningKey = Run.done (some b, k, none) ∧
      b.newPubKey = demoSigningKey.1.drop 32 :=
  ⟨_, _, rfl,
    (seeded_newPubKey demoPkg demoWorld demoRoot (str "sub") demoKey demoSigningKey
      _ _ rfl).1⟩

/-- C8: for every successful `MakeBlockSigningKeySeeded` call with a supplied
64-byte key pair `signingkey`, the returned key material is exactly the first 32
bytes of `signingkey` (`signingkey[:32]`), whatever the root chain ID, the
authorizing key, the clock and the random reader are. -/
theorem seeded_key_material (p : Pkg) (w : World) (root sub : GoString)
    (key signingkey : Arr 64) (b : BlockSigningKey) (k : Option (List Byte))
    (h : MakeBlockSigningKeySeeded p w root sub key signingkey = Run.done (some b, k, none)) :
    k = some (signingkey.1.take 32) ∧ (signingkey.1.take 32).length = 32 := by
  rcases seeded_done_cases h with ⟨e, he⟩ | ⟨b0, k0, b1, -, -, hr⟩
  · simp at he
  · simp only [Prod.mk.injEq, Option.some.injEq] at hr
    refine ⟨hr.2.1, ?_⟩
    rw [List.length_take, signingkey.2]; rfl

theorem seeded_key_material_witness :
    ∃ b k, MakeBlockSigningKeySeeded demoPkg demoWorld demoRoot (str "sub") demoKey
        demoSigningKey = Run.done (some b, k, none) ∧
      k = some (List.replicate 32 1) :=
  ⟨_, _, rfl,
    (seeded_key_material demoPkg demoWorld demoRoot (str "sub") demoKey demoSigningKey
      _ _ rfl).1⟩

/-- C9 as stated fails: the deterministic build on the sample root chain ID
returns 64 bytes of key material, the whole private key, and not its second
half. -/
theorem generated_key_material_counterexample :
    ∃ (b : BlockSigningKey) (k : Option (List Byte)) (priv : Arr 64),
      MakeBlockSigningKeyFixed demoPkg demoWorld demoRoot (str "sub") demoKey false
        = Run.done (some b, k, none) ∧
      (GenerateKey demoPkg (bufferOf demoRoot)).toOption.map (fun kp => kp.2) = some priv ∧
      k = some priv.1 ∧ priv.1.length = 64 ∧ k ≠ some (priv.1.drop 32) :=
  ⟨_, _, _, rfl, rfl, rfl, by decide, by decide⟩

/-- C9 (amended): for every successful build by `MakeBlockSigningKeyFixed`
(`random` false or true) or `MakeBlockSigningKey`, the returned key material is
the whole 64-byte private key of the generated key pair (from the random reader
when `random` is true, from a buffer holding `rootChainIDStr` otherwise): it is
exactly 64 bytes long, and the record carries the public key of the same pair. -/
theorem generated_key_material (op : BuildOp) (random : Bool) (p : Pkg) (w : World)
    (root sub : GoString) (key : Arr 64) (b : BlockSigningKey) (k : Option (List Byte))
    (hop : op.generates = some random)
    (h : op.run p w root sub key = Run.done (some b, k, none)) :
    ∃ pub priv,
      GenerateKey p (if random then w.rand else bufferOf root) = Except.ok (pub, priv) ∧
      k = some priv.1 ∧ priv.1.length = 64 ∧ b.newPubKey = pub.1 := by
  obtain ⟨pub, priv, hg, hf, hk⟩ := generated_done hop h
  exact ⟨pub, priv, hg, hk, priv.2, hf.2.2.2.1⟩

theorem generated_key_material_witness :
    ∃ b k, BuildOp.Default.run demoPkg demoWorld demoRoot (str "sub") demoKey
        = Run.done (some b, k, none) ∧
      ∃ pub priv,
        GenerateKey demoPkg (if false then demoWorld.rand else bufferOf demoRoot)
          = Except.ok (pub, priv) ∧
        k = some priv.1 ∧ priv.1.length = 64 ∧ b.newPubKey = pub.1 :=
  ⟨_, _, rfl,
    generated_key_material BuildOp.Default false demoPkg demoWorld demoRoot (str "sub") demoKey
      _ _ rfl rfl⟩

/-- C10: any two successful deterministic builds (`MakeBlockSigningKeyFixed`
with `random` false, or `MakeBlockSigningKey`) with the same `rootChainIDStr`
return the same `newPubKey` and the same key material, whatever the clock, the
random reader, the authorizing key and the destination chain of either run. -/
theorem deterministic_same_keys (op1 op2 : BuildOp) (p : Pkg) (w1 w2 : World)
    (root sub1 sub2 : GoString) (key1 key2 : Arr 64) (b1 b2 : BlockSigningKey)
    (k1 k2 : Option (List Byte))
    (hop1 : op1.generates = some false) (hop2 : op2.generates = some false)
    (h1 : op1.run p w1 root sub1 key1 = Run.done (some b1, k1, none))
    (h2 : op2.run p w2 root sub2 key2 = Run.done (some b2, k2, none)) :
    b1.newPubKey = b2.newPubKey ∧ k1 = k2 := by
  obtain ⟨pub1, priv1, hg1, hf1, hk1⟩ := generated_done hop1 h1
  obtain ⟨pub2, priv2, hg2, hf2, hk2⟩ := generated_done hop2 h2
  simp only [Bool.false_eq_true, if_false] at hg1 hg2
  rw [hg1] at hg2
  simp only [Except.ok.injEq, Prod.mk.injEq] at hg2
  rw [hf1.2.2.2.1, hf2.2.2.2.1, hk1, hk2, hg2.1, hg2.2]
  exact ⟨rfl, rfl⟩

theorem deterministic_same_keys_witness :
    ∃ b1 b2 k1 k2,
      (BuildOp.Fixed false).run demoPkg demoWorld demoRoot (str "sub") demoKey
        = Run.done (some b1, k1, none) ∧
      BuildOp.Default.run demoPkg otherWorld demoRoot (str "other") demoSigningKey
        = Run.done (some b2, k2, none) ∧
      b1.timestamp ≠ b2.timestamp ∧
      b1.newPubKey = b2.newPubKey ∧ k1 = k2 :=
  ⟨_, _, _, _, rfl, rfl, by decide,
    deterministic_same_keys (BuildOp.Fixed false) BuildOp.Default demoPkg demoWorld otherWorld
      demoRoot (str "sub") (str "other") demoKey demoSigningKey _ _ _ _ rfl rfl rfl rfl⟩

/-- What a successful `GenerateKey` has read and returned. -/
theorem generateKey_ok {p : Pkg} {r : Reader} {pub : Arr 32} {priv : Arr 64}
    (h : GenerateKey p r = Except.ok (pub, priv)) :
    ∃ hlen : 32 ≤ r.avail.length,
      pub = p.publicKey ⟨r.avail.take 32, by simp [List.length_take, hlen]⟩ ∧
      priv.1 = r.avail.take 32 ++ pub.1 := by
  unfold GenerateKey ioReadFull at h
  by_cases hlen : 32 ≤ r.avail.length
  · rw [dif_pos hlen] at h
    simp only [Except.ok.injEq, Prod.mk.injEq] at h
    refine ⟨hlen, h.1.symm, ?_⟩
    rw [← h.2, ← h.1]
  · rw [dif_neg hlen] at h
    split_ifs at h

/-- C11 as stated fails: `888888aa…` and `888888AA…` decode to the same root
chain ID, both deterministic builds succeed, and they return different
`newPubKey` and different key material. -/
theorem decoded_seed_counterexample :
    ∃ b1 k1 b2 k2,
      (hexDecode lowerRoot).1 = (hexDecode upperRoot).1 ∧
      MakeBlockSigningKeyFixed demoPkg demoWorld lowerRoot (str "sub") demoKey false
        = Run.done (some b1, k1, none) ∧
      MakeBlockSigningKeyFixed demoPkg demoWorld upperRoot (str "sub") demoKey false
        = Run.done (some b2, k2, none) ∧
      b1.rootChainID = b2.rootChainID ∧ b1.newPubKey ≠ b2.newPubKey ∧ k1 ≠ k2 :=
  ⟨_, _, _, _, by decide, rfl, rfl, by decide, by decide, by decide⟩

/-- C11 (amended): in deterministic mode the new key pair is a function of the
first 32 bytes of the string `rootChainIDStr` as written: for any two strings
with the same first 32 bytes, successful deterministic builds return the same
`newPubKey` and the same key material, and the key material starts with those
32 bytes of the string. -/
theorem string_seed_same_keys (op1 op2 : BuildOp) (p : Pkg) (w1 w2 : World)
    (root1 root2 sub1 sub2 : GoString) (key1 key2 : Arr 64) (b1 b2 : BlockSigningKey)
    (k1 k2 : Option (List Byte))
    (hop1 : op1.generates = some false) (hop2 : op2.generates = some false)
    (hseed : root1.take 32 = root2.take 32)
    (h1 : op1.run p w1 root1 sub1 key1 = Run.done (some b1, k1, none))
    (h2 : op2.run p w2 root2 sub2 key2 = Run.done (some b2, k2, none)) :
    b1.newPubKey = b2.newPubKey ∧ k1 = k2 ∧ k1 = some (root1.take 32 ++ b1.newPubKey) := by
  obtain ⟨pub1, priv1, hg1, hf1, hk1⟩ := generated_done hop1 h1
  obtain ⟨pub2, priv2, hg2, hf2, hk2⟩ := generated_done hop2 h2
  simp only [Bool.false_eq_true, if_false] at hg1 hg2
  obtain ⟨hl1, hp1, hv1⟩ := generateKey_ok hg1
  obtain ⟨hl2, hp2, hv2⟩ := generateKey_ok hg2
  simp only [bufferOf] at hp1 hp2 hv1 hv2
  have hpub : pub1 = pub2 := by
    rw [hp1, hp2]
    congr 1
    exact Subtype.ext hseed
  have hpriv : priv1.1 = priv2.1 := by rw [hv1, hv2, hseed, hpub]
  refine ⟨?_, ?_, ?_⟩
  · rw [hf1.2.2.2.1, hf2.2.2.2.1, hpub]
  · rw [hk1, hk2, hpriv]
  · rw [hk1, hv1, hf1.2.2.2.1]

theorem string_seed_same_keys_witness :
    ∃ b1 k1 b2 k2,
      (BuildOp.Fixed false).run demoPkg demoWorld demoRoot (str "sub") demoKey
        = Run.done (some b1, k1, none) ∧
      BuildOp.Default.run demoPkg otherWorld (demoRoot ++ str "ff") (str "sub") demoKey
        = Run.done (some b2, k2, none) ∧
      b1.rootChainID ≠ b2.rootChainID ∧
      b1.newPubKey = b2.newPubKey ∧ k1 = k2 ∧ k1 = some (demoRoot.take 32 ++ b1.newPubKey) :=
  ⟨_, _, _, _, rfl, rfl, by decide,
    string_seed_same_keys (BuildOp.Fixed false) BuildOp.Default demoPkg demoWorld otherWorld
      demoRoot (demoRoot ++ str "ff") (str "sub") (str "sub") demoKey demoKey _ _ _ _
      rfl rfl (by decide) rfl rfl⟩

/-- C12: for every successful build by any entry point with the 64-byte
`privateKey`, the `identityPreimage` field, which is field 5 of the field
list, is exactly 33 bytes: the byte 0x01 followed by bytes 32 to 63 of
`privateKey`; nothing else enters it. -/
theorem identityPreimage_from_key (op : BuildOp) (p : Pkg) (w : World) (root sub : GoString)
    (key : Arr 64) (b : BlockSigningKey) (k : Option (List Byte))
    (h : op.run p w root sub key = Run.done (some b, k, none)) :
    b.identityPreimage = 0x01 :: key.1.drop 32 ∧
    b.identityPreimage.length = 33 ∧
    (key.1.drop 32).length = 32 ∧
    (extIdList b)[5]? = some (0x01 :: key.1.drop 32) := by
  obtain ⟨-, -, -, -, -, -, h6, -, -⟩ := run_done_fields h
  have hl : (key.1.drop 32).length = 32 := by rw [List.length_drop, key.2]
  refine ⟨h6, ?_, hl, ?_⟩
  · rw [h6, List.length_cons, hl]
  · simp [extIdList, h6]

theorem identityPreimage_from_key_witness :
    ∃ b k, (BuildOp.Seeded demoSigningKey).run demoPkg demoWorld demoRoot (str "sub") demoKey
        = Run.done (some b, k, none) ∧
      b.identityPreimage = 0x01 :: (List.range 64).drop 32 :=
  ⟨_, _, rfl,
    (identityPreimage_from_key (BuildOp.Seeded demoSigningKey) demoPkg demoWorld demoRoot
      (str "sub") demoKey _ _ rfl).1⟩

/-- C13: for every record `r`, `GetEntry r` has `ChainID` equal to
`r.subchain`, empty `Content`, and `ExtIDs` equal to `extIdList r`, the seven
fields in order; and in a record `b` returned by a successful build by any
entry point, `subchain` is the `subchainID` passed to the build, unchanged. -/
theorem getEntry_of_record (r : BlockSigningKey) (op : BuildOp) (p : Pkg) (w : World)
    (root sub : GoString) (key : Arr 64) (b : BlockSigningKey) (k : Option (List Byte))
    (h : op.run p w root sub key = Run.done (some b, k, none)) :
    GetEntry r = { ChainID := r.subchain, Content := [], ExtIDs := extIdList r } ∧
    (GetEntry r).ExtIDs = [r.version, r.message, r.rootChainID, r.newPubKey, r.timestamp,
      r.identityPreimage, r.signiture] ∧
    (GetEntry b).ChainID = sub ∧ (GetEntry b).Content = [] ∧
    (GetEntry b).ExtIDs = extIdList b := by
  obtain ⟨-, -, -, -, -, -, -, -, h9⟩ := run_done_fields h
  exact ⟨rfl, rfl, h9, rfl, rfl⟩

theorem getEntry_of_record_witness :
    ∃ b k, (BuildOp.Fixed true).run demoPkg demoWorld shortRoot (str "any chain") demoKey
        = Run.done (some b, k, none) ∧
      (GetEntry b).ChainID = str "any chain" :=
  ⟨_, _, rfl,
    (getEntry_of_record ⟨[], [], [], [], [], [], [], []⟩ (BuildOp.Fixed true) demoPkg demoWorld shortRoot (str "any chain")
      demoKey _ _ rfl).2.2.1⟩

/-- Reading back what `PutUint64` wrote gives the value modulo 2^64. -/
theorem Uint64_PutUint64 (v : Nat) : Uint64 (PutUint64 v) = v % 2 ^ 64 := by
  simp only [Uint64, PutUint64, List.foldl_cons, List.foldl_nil, Nat.reducePow]
  omega

/-- A returning `MakeBlockSigningKeyFixed` found the tag at the front of the
decoded slice. -/
theorem fixed_done_tag {p : Pkg} {w : World} {root sub : GoString} {key : Arr 64}
    {random : Bool} {b : BlockSigningKey} {k : Option (List Byte)}
    (h : MakeBlockSigningKeyFixed p w root sub key random = Run.done (some b, k, none)) :
    Slice.upTo ⟨(hexDecode root).1, w.spare⟩ p.ProofOfWorkLength
      = some (p.ProofOfWorkChainID.take p.ProofOfWorkLength) := by
  rcases fixed_done_cases h with ⟨e, he⟩ | ⟨pub, priv, b1, hd, -, -, htag, -, -⟩
  · simp at he
  · rw [← htag]
    unfold sliceTo
    by_cases hc : p.ProofOfWorkLength ≤ p.ProofOfWorkChainID.length
    · rw [if_pos hc]
    · exfalso
      have hy : sliceTo p.ProofOfWorkChainID p.ProofOfWorkLength = none := by
        unfold sliceTo; rw [if_neg hc]
      unfold MakeBlockSigningKeyFixed at h
      simp only [hexDecodeString, hd, hy] at h
      split at h <;> simp_all

/-- The tag at the front of the decoded slice, for every entry point. -/
theorem run_done_tag {op : BuildOp} {p : Pkg} {w : World} {root sub : GoString}
    {key : Arr 64} {b : BlockSigningKey} {k : Option (List Byte)}
    (h : op.run p w root sub key = Run.done (some b, k, none)) :
    Slice.upTo ⟨(hexDecode root).1, w.spare⟩ p.ProofOfWorkLength
      = some (p.ProofOfWorkChainID.take p.ProofOfWorkLength) := by
  cases op with
  | Fixed random => exact fixed_done_tag h
  | Default => exact fixed_done_tag h
  | Seeded sk =>
    rcases seeded_done_cases h with ⟨e, he⟩ | ⟨b0, k0, b1, h0, -, -⟩
    · simp at he
    · exact fixed_done_tag h0

/-- The clock reading in the record, for every entry point. -/
theorem run_done_timestamp {op : BuildOp} {p : Pkg} {w : World} {root sub : GoString}
    {key : Arr 64} {b : BlockSigningKey} {k : Option (List Byte)}
    (h : op.run p w root sub key = Run.done (some b, k, none)) :
    b.timestamp = PutUint64 (uint64 (w.now op.clockReading)) := by
  have fixed : ∀ {random b0 k0},
      MakeBlockSigningKeyFixed p w root sub key random = Run.done (some b0, k0, none) →
      b0.timestamp = PutUint64 (uint64 (w.now 0)) := by
    intro random b0 k0 h0
    rcases fixed_done_cases h0 with ⟨e, he⟩ | ⟨pub, priv, b1, -, -, -, -, hf, hr⟩
    · simp at he
    · simp only [Prod.mk.injEq, Option.some.injEq] at hr
      rw [hr.1]; exact hf.2.2.2.2.1
  cases op with
  | Fixed random => exact fixed h
  | Default => exact fixed h
  | Seeded sk =>
    rcases seeded_done_cases h with ⟨e, he⟩ | ⟨b0, k0, b1, -, hs, hr⟩
    · simp at he
    · simp only [Prod.mk.injEq, Option.some.injEq] at hr
      rw [hr.1]; exact hs.2.2.2.2.1

/-- C14: for every successful build by any entry point, the record has
`version` = [0x00], `message` = the 21 ASCII bytes of "New Block Signing Key"
and `rootChainID` = exactly the bytes that `rootChainIDStr` hex-decodes to; the
slice expression `rootChainID[:ProofOfWorkLength]` on it gave the first
`ProofOfWorkLength` bytes of `ProofOfWorkChainID`, so a `rootChainID` of at
least that many bytes starts with the tag; and `MakeBlockSigningKeySeeded`
leaves these three fields as the inner `MakeBlockSigningKeyFixed` build
produced them. -/
theorem constant_fields_and_root (op : BuildOp) (p : Pkg) (w : World) (root sub : GoString)
    (key : Arr 64) (b : BlockSigningKey) (k : Option (List Byte))
    (h : op.run p w root sub key = Run.done (some b, k, none)) :
    b.version = [0x00] ∧
    b.message = str "New Block Signing Key" ∧ b.message.length = 21 ∧
    (hexDecode root).2 = none ∧ b.rootChainID = (hexDecode root).1 ∧
    Slice.upTo ⟨b.rootChainID, w.spare⟩ p.ProofOfWorkLength
      = some (p.ProofOfWorkChainID.take p.ProofOfWorkLength) ∧
    (p.ProofOfWorkLength ≤ b.rootChainID.length →
      b.rootChainID.take p.ProofOfWorkLength
        = p.ProofOfWorkChainID.take p.ProofOfWorkLength) ∧
    (∀ sk, op = BuildOp.Seeded sk →
      ∃ b0 k0, MakeBlockSigningKeyFixed p w root sub key false
          = Run.done (some b0, k0, none) ∧
        b.version = b0.version ∧ b.message = b0.message ∧
        b.rootChainID = b0.rootChainID) := by
  obtain ⟨hd, h1, h2, h3, -, -, -, -, -⟩ := run_done_fields h
  have htag := run_done_tag h
  rw [← h3] at htag
  refine ⟨h1, h2, by rw [h2]; rfl, hd, h3, htag, ?_, ?_⟩
  · intro hlen
    unfold Slice.upTo at htag
    split_ifs at htag with hc
    simp only [Option.some.injEq] at htag
    rw [← htag, List.take_append_of_le_length hlen]
  · intro sk hop
    subst hop
    rcases seeded_done_cases h with ⟨e, he⟩ | ⟨b0, k0, b1, h0, hs, hr⟩
    · simp at he
    · simp only [Prod.mk.injEq, Option.some.injEq] at hr
      refine ⟨b0, k0, h0, ?_, ?_, ?_⟩
      · rw [hr.1]; exact hs.1
      · rw [hr.1]; exact hs.2.1
      · rw [hr.1]; exact hs.2.2.1

theorem constant_fields_and_root_witness :
    ∃ b k, (BuildOp.Seeded demoSigningKey).run demoPkg demoWorld demoRoot (str "sub") demoKey
        = Run.done (some b, k, none) ∧
      b.version = [0x00] ∧ b.message = str "New Block Signing Key" ∧
      b.rootChainID = [0x88, 0x88, 0x88] ++ List.replicate 29 0 :=
  ⟨_, _, rfl,
    (constant_fields_and_root (BuildOp.Seeded demoSigningKey) demoPkg demoWorld demoRoot
      (str "sub") demoKey _ _ rfl).1,
    (constant_fields_and_root (BuildOp.Seeded demoSigningKey) demoPkg demoWorld demoRoot
      (str "sub") demoKey _ _ rfl).2.1, by decide⟩

/-- C15: for every successful build by any entry point whose clock reading is
`t` seconds (the second reading of the call for `MakeBlockSigningKeySeeded`),
the `timestamp` field is exactly 8 bytes, the big-endian encoding of `t` taken
as a 64-bit unsigned integer: the bytes spell `t mod 2^64` in big-endian order,
which is `t` itself whenever `0 ≤ t < 2^64`. -/
theorem timestamp_big_endian (op : BuildOp) (p : Pkg) (w : World) (root sub : GoString)
    (key : Arr 64) (b : BlockSigningKey) (k : Option (List Byte))
    (h : op.run p w root sub key = Run.done (some b, k, none)) :
    b.timestamp = PutUint64 ((w.now op.clockReading % 2 ^ 64).toNat) ∧
    b.timestamp.length = 8 ∧
    (∀ x ∈ b.timestamp, x < 256) ∧
    (Uint64 b.timestamp : Int) = w.now op.clockReading % 2 ^ 64 ∧
    (0 ≤ w.now op.clockReading → w.now op.clockReading < 2 ^ 64 →
      (Uint64 b.timestamp : Int) = w.now op.clockReading) := by
  have ht := run_done_timestamp h
  have hnn : (0 : Int) ≤ w.now op.clockReading % 2 ^ 64 :=
    Int.emod_nonneg _ (by norm_num)
  have hlt : w.now op.clockReading % 2 ^ 64 < 2 ^ 64 :=
    Int.emod_lt_of_pos _ (by norm_num)
  have hval : (Uint64 b.timestamp : Int) = w.now op.clockReading % 2 ^ 64 := by
    rw [ht, Uint64_PutUint64, uint64]
    have hlt2 : (w.now op.clockReading % 2 ^ 64).toNat < 2 ^ 64 := by
      have := Int.toNat_of_nonneg hnn
      omega
    rw [Nat.mod_eq_of_lt hlt2, Int.toNat_of_nonneg hnn]
  refine ⟨ht, by rw [ht]; rfl, ?_, hval, ?_⟩
  · rw [ht]
    intro x hx
    simp only [PutUint64, List.mem_cons, List.mem_singleton, List.not_mem_nil, or_false] at hx
    rcases hx with hx | hx | hx | hx | hx | hx | hx | hx <;> (rw [hx]; exact Nat.mod_lt _ (by norm_num))
  · intro h0 h64
    rw [hval, Int.emod_eq_of_lt h0 h64]

theorem timestamp_big_endian_witness :
    ∃ b k, (BuildOp.Seeded demoSigningKey).run demoPkg demoWorld demoRoot (str "sub") demoKey
        = Run.done (some b, k, none) ∧
      b.timestamp = [0, 0, 0, 0, 0x59, 0x68, 0x2f, 0x01] ∧
      (Uint64 b.timestamp : Int) = 1500000001 :=
  ⟨_, _, rfl, by decide,
    (timestamp_big_endian (BuildOp.Seeded demoSigningKey) demoPkg demoWorld demoRoot
      (str "sub") demoKey _ _ rfl).2.2.2.2 (by decide) (by decide)⟩

/-- Every entry point panics, returns an error alone, or returns a record and
key material with no error. -/
theorem build_result_shape (op : BuildOp) (p : Pkg) (w : World) (root sub : GoString)
    (key : Arr 64) :
    op.run p w root sub key = Run.panic ∨
    (∃ e, op.run p w root sub key = Run.done (none, none, some e)) ∨
    (∃ b k, op.run p w root sub key = Run.done (some b, some k, none)) := by
  cases hr : op.run p w root sub key with
  | panic => left; rfl
  | done r =>
    right
    cases op with
    | Fixed random =>
      rcases fixed_done_cases hr with ⟨e, he⟩ | ⟨pub, priv, b, -, -, -, -, -, hb⟩
      · left; exact ⟨e, by rw [he]⟩
      · right; exact ⟨b, priv.1, by rw [hb]⟩
    | Default =>
      rcases fixed_done_cases hr with ⟨e, he⟩ | ⟨pub, priv, b, -, -, -, -, -, hb⟩
      · left; exact ⟨e, by rw [he]⟩
      · right; exact ⟨b, priv.1, by rw [hb]⟩
    | Seeded sk =>
      rcases seeded_done_cases hr with ⟨e, he⟩ | ⟨b0, k0, b, -, -, hb⟩
      · left; exact ⟨e, by rw [he]⟩
      · right; exact ⟨b, sk.1.take 32, by rw [hb]⟩

/-- C16 (the code at a failing input): when `rootChainIDStr` decodes and the
decoded identifier together with the spare capacity behind it is shorter than
`ProofOfWorkLength`, every entry point panics at the slice expression
`rootChainID[:ProofOfWorkLength]` and returns neither of the two result
shapes. The empty string is such an input. -/
theorem build_short_root_panics (op : BuildOp) (p : Pkg) (w : World) (root sub : GoString)
    (key : Arr 64) (hdec : (hexDecode root).2 = none)
    (hshort : (hexDecode root).1.length + w.spare.length < p.ProofOfWorkLength) :
    op.run p w root sub key = Run.panic ∧
    (∀ e, op.run p w root sub key ≠ Run.done (none, none, some e)) ∧
    (∀ b k, op.run p w root sub key ≠ Run.done (some b, some k, none)) := by
  have hx : Slice.upTo ⟨(hexDecode root).1, w.spare⟩ p.ProofOfWorkLength = none := by
    simp only [Slice.upTo, Nat.not_le.2 hshort, if_false]
  have hfix : ∀ random, MakeBlockSigningKeyFixed p w root sub key random = Run.panic := by
    intro random
    unfold MakeBlockSigningKeyFixed
    simp only [hexDecodeString, hdec, hx]
  have hp : op.run p w root sub key = Run.panic := by
    cases op with
    | Fixed random => exact hfix random
    | Default => exact hfix false
    | Seeded sk => simp only [BuildOp.run, MakeBlockSigningKeySeeded, hfix false]
  refine ⟨hp, ?_, ?_⟩
  · intro e he
    rw [hp] at he
    cases he
  · intro b k he
    rw [hp] at he
    cases he

theorem build_short_root_panics_witness :
    MakeBlockSigningKeySeeded demoPkg demoWorld [] (str "sub") demoKey demoSigningKey
      = Run.panic :=
  (build_short_root_panics (BuildOp.Seeded demoSigningKey) demoPkg demoWorld [] (str "sub")
    demoKey rfl (by decide)).1

/-- C18: `MakeBlockSigningKey` returns exactly what `MakeBlockSigningKeyFixed`
returns with `random` = false, for all inputs and the same clock, random
reader and signer. -/
theorem default_is_deterministic (p : Pkg) (w : World) (root sub : GoString) (key : Arr 64) :
    MakeBlockSigningKey p w root sub key
      = MakeBlockSigningKeyFixed p w root sub key false ∧
    BuildOp.Default.run p w root sub key = (BuildOp.Fixed false).run p w root sub key :=
  ⟨rfl, rfl⟩

/-- C19: for any two records returned by successful builds (any entry points,
any inputs, any surroundings), equal signed bytes `versionToTimestamp` force
equal `rootChainID`, equal `newPubKey` and equal `timestamp`. -/
theorem signed_bytes_unambiguous (op1 op2 : BuildOp) (p1 p2 : Pkg) (w1 w2 : World)
    (root1 root2 sub1 sub2 : GoString) (key1 key2 : Arr 64) (b1 b2 : BlockSigningKey)
    (k1 k2 : Option (List Byte))
    (h1 : op1.run p1 w1 root1 sub1 key1 = Run.done (some b1, k1, none))
    (h2 : op2.run p2 w2 root2 sub2 key2 = Run.done (some b2, k2, none))
    (heq : versionToTimestamp b1 = versionToTimestamp b2) :
    b1.rootChainID = b2.rootChainID ∧ b1.newPubKey = b2.newPubKey ∧
    b1.timestamp = b2.timestamp := by
  obtain ⟨-, v1, m1, -, n1, ⟨i1, t1⟩, -, -, -⟩ := run_done_fields h1
  obtain ⟨-, v2, m2, -, n2, ⟨i2, t2⟩, -, -, -⟩ := run_done_fields h2
  have ht : b1.timestamp.length = b2.timestamp.length := by rw [t1, t2]; rfl
  unfold versionToTimestamp at heq
  obtain ⟨heq3, hts⟩ := List.append_inj' heq ht
  obtain ⟨heq2, hpk⟩ := List.append_inj' heq3 (n1.trans n2.symm)
  rw [v1, m1, v2, m2] at heq2
  exact ⟨List.append_cancel_left heq2, hpk, hts⟩

theorem signed_bytes_unambiguous_witness :
    ∃ b1 k1 b2 k2,
      (BuildOp.Fixed false).run demoPkg demoWorld demoRoot (str "sub") demoKey
        = Run.done (some b1, k1, none) ∧
      BuildOp.Default.run demoPkg demoWorld demoRoot (str "other") demoSigningKey
        = Run.done (some b2, k2, none) ∧
      b1 ≠ b2 ∧
      b1.rootChainID = b2.rootChainID ∧ b1.newPubKey = b2.newPubKey ∧
      b1.timestamp = b2.timestamp :=
  ⟨_, _, _, _, rfl, rfl, by decide,
    signed_bytes_unambiguous (BuildOp.Fixed false) BuildOp.Default demoPkg demoPkg demoWorld
      demoWorld demoRoot demoRoot (str "sub") (str "other") demoKey demoSigningKey _ _ _ _
      rfl rfl (by decide)⟩

/-- A reader with 32 bytes left makes `GenerateKey` succeed. -/
theorem generateKey_returns (p : Pkg) {r : Reader} (h : 32 ≤ r.avail.length) :
    ∃ pub priv, GenerateKey p r = Except.ok (pub, priv) := by
  unfold GenerateKey ioReadFull
  rw [dif_pos h]
  exact ⟨_, _, rfl⟩

/-- The run of `MakeBlockSigningKeyFixed` past a tag check that passes, in
terms of the two calls of the key generator. -/
theorem fixed_past_tag {p : Pkg} {w : World} {root sub : GoString} {key : Arr 64}
    (hdec : (hexDecode root).2 = none)
    (hlen : p.ProofOfWorkLength ≤ (hexDecode root).1.length)
    (hconst : p.ProofOfWorkLength ≤ p.ProofOfWorkChainID.length)
    (htag : (hexDecode root).1.take p.ProofOfWorkLength
      = p.ProofOfWorkChainID.take p.ProofOfWorkLength) :
    (∀ e, GenerateKey p w.rand = Except.error e →
      MakeBlockSigningKeyFixed p w root sub key false = Run.done (none, none, some e)) ∧
    (∀ kp e, GenerateKey p w.rand = Except.ok kp →
      GenerateKey p (bufferOf root) = Except.error e →
      MakeBlockSigningKeyFixed p w root sub key false = Run.done (none, none, some e)) ∧
    (∀ kp kp2, GenerateKey p w.rand = Except.ok kp →
      GenerateKey p (bufferOf root) = Except.ok kp2 →
      ∃ b k, MakeBlockSigningKeyFixed p w root sub key false
        = Run.done (some b, k, none)) := by
  have hx : Slice.upTo ⟨(hexDecode root).1, w.spare⟩ p.ProofOfWorkLength
      = some ((hexDecode root).1.take p.ProofOfWorkLength) := by
    have hle : p.ProofOfWorkLength ≤ (hexDecode root).1.length + w.spare.length :=
      Nat.le_trans hlen (Nat.le_add_right _ _)
    simp only [Slice.upTo, hle, if_true]
    rw [List.take_append_of_le_length hlen]
  have hy : sliceTo p.ProofOfWorkChainID p.ProofOfWorkLength
      = some (p.ProofOfWorkChainID.take p.ProofOfWorkLength) := by
    simp only [sliceTo, hconst, if_true]
  have hc : bytesCompare ((hexDecode root).1.take p.ProofOfWorkLength)
      (p.ProofOfWorkChainID.take p.ProofOfWorkLength) = 0 :=
    (bytesCompare_eq_zero _ _).2 htag
  refine ⟨?_, ?_, ?_⟩
  · intro e he
    unfold MakeBlockSigningKeyFixed
    simp only [hexDecodeString, hdec, hx, hy, hc, he, ne_eq, not_true_eq_false, if_false]
  · intro kp e hk he
    obtain ⟨pub, priv⟩ := kp
    unfold MakeBlockSigningKeyFixed
    simp only [hexDecodeString, hdec, hx, hy, hc, hk, he, ne_eq, not_true_eq_false, if_false,
      Bool.not_false, if_true]
  · intro kp kp2 hk hk2
    obtain ⟨pub, priv⟩ := kp
    obtain ⟨pub2, priv2⟩ := kp2
    unfold MakeBlockSigningKeyFixed
    simp only [hexDecodeString, hdec, hx, hy, hc, hk, hk2, ne_eq, not_true_eq_false, if_false,
      Bool.not_false, if_true]
    exact ⟨_, _, rfl⟩

/-- The record and the key material of a returning `MakeBlockSigningKeySeeded`
are fixed by the arguments, the signer and the second clock reading: the random
reader and the curve arithmetic of the key generator do not enter them. -/
theorem seeded_result_unique {p p2 : Pkg} {w w2 : World} {root sub : GoString}
    {key sk : Arr 64} {b b2 : BlockSigningKey} {k k2 : Option (List Byte)}
    (h : MakeBlockSigningKeySeeded p w root sub key sk = Run.done (some b, k, none))
    (h2 : MakeBlockSigningKeySeeded p2 w2 root sub key sk = Run.done (some b2, k2, none))
    (hsign : p2.Sign = p.Sign)
    (hnow : w2.now 1 = w.now 1) : b2 = b ∧ k2 = k := by
  have seeded : ∀ {p0 : Pkg} {w0 : World} {b0 : BlockSigningKey} {k0 : Option (List Byte)},
      MakeBlockSigningKeySeeded p0 w0 root sub key sk = Run.done (some b0, k0, none) →
      b0.newPubKey = sk.1.drop 32 ∧ k0 = some (sk.1.take 32) := by
    intro p0 w0 b0 k0 h0
    rcases seeded_done_cases h0 with ⟨e, he⟩ | ⟨b1, k1, b3, -, hs, hr⟩
    · simp at he
    · simp only [Prod.mk.injEq, Option.some.injEq] at hr
      exact ⟨by rw [hr.1]; exact hs.2.2.2.1, hr.2.1⟩
  have hrun : (BuildOp.Seeded sk).run p w root sub key = Run.done (some b, k, none) := h
  have hrun2 : (BuildOp.Seeded sk).run p2 w2 root sub key = Run.done (some b2, k2, none) := h2
  obtain ⟨-, v, m, r, -, -, i, s, c⟩ := run_done_fields hrun
  obtain ⟨-, v2, m2, r2, -, -, i2, s2, c2⟩ := run_done_fields hrun2
  have t := run_done_timestamp hrun
  have t2 := run_done_timestamp hrun2
  obtain ⟨n, hk⟩ := seeded h
  obtain ⟨n2, hk2⟩ := seeded h2
  simp only [BuildOp.clockReading] at t t2
  rw [hnow] at t2
  have hbytes : versionToTimestamp b2 = versionToTimestamp b := by
    unfold versionToTimestamp
    rw [v, m, r, n, t, v2, m2, r2, n2, t2]
  rw [hbytes, hsign] at s2
  refine ⟨?_, by rw [hk, hk2]⟩
  cases b
  cases b2
  simp only [BlockSigningKey.mk.injEq]
  simp only at v m r n t i s c v2 m2 r2 n2 t2 i2 s2 c2
  exact ⟨v2.trans v.symm, m2.trans m.symm, r2.trans r.symm, n2.trans n.symm,
    t2.trans t.symm, i2.trans i.symm, s2.trans s.symm, c2.trans c.symm⟩

/-- C17 as stated fails: `MakeBlockSigningKeySeeded` fails with the error of the
random reader when that reader delivers nothing, and fails with
`io.ErrUnexpectedEOF` on the six hex digits `888888`, which decode and carry the
tag but are too few for the inner deterministic key generation. -/
theorem seeded_bypass_counterexample :
    MakeBlockSigningKeySeeded demoPkg drainedWorld demoRoot (str "sub") demoKey demoSigningKey
      = Run.done (none, none, some (GoError.other 0)) ∧
    (hexDecode shortRoot = ([0x88, 0x88, 0x88], none) ∧
      MakeBlockSigningKeySeeded demoPkg demoWorld shortRoot (str "sub") demoKey demoSigningKey
        = Run.done (none, none, some GoError.ErrUnexpectedEOF)) :=
  ⟨rfl, by decide, rfl⟩

/-- C17 (amended): `MakeBlockSigningKeySeeded` runs the deterministic build
first and then puts the supplied key pair in. For every `rootChainIDStr` that
decodes and carries the tag: when it has at least 32 bytes and the random
reader delivers 32 bytes, the call succeeds with `newPubKey` = `signingkey[32:]`
and key material `signingkey[:32]`, and its record and key material are the
same for every random reader that delivers 32 bytes and for every curve
arithmetic `publicKey` of the internal key generator (same second clock
reading), so neither the random bytes nor the key pairs generated internally
enter the result; when the random reader fails, or the key generation seeded
with `rootChainIDStr` fails, the call fails with that error. -/
theorem seeded_runs_inner_generation (p : Pkg) (w : World) (root sub : GoString)
    (key sk : Arr 64)
    (hdec : (hexDecode root).2 = none)
    (hlen : p.ProofOfWorkLength ≤ (hexDecode root).1.length)
    (hconst : p.ProofOfWorkLength ≤ p.ProofOfWorkChainID.length)
    (htag : (hexDecode root).1.take p.ProofOfWorkLength
      = p.ProofOfWorkChainID.take p.ProofOfWorkLength) :
    (32 ≤ root.length → 32 ≤ w.rand.avail.length →
      ∃ b, MakeBlockSigningKeySeeded p w root sub key sk
          = Run.done (some b, some (sk.1.take 32), none) ∧
        b.newPubKey = sk.1.drop 32 ∧
        b.rootChainID = (hexDecode root).1 ∧
        b.timestamp = PutUint64 (uint64 (w.now 1)) ∧
        b.signiture = (p.Sign key ([0x00] ++ str "New Block Signing Key"
          ++ (hexDecode root).1 ++ sk.1.drop 32 ++ PutUint64 (uint64 (w.now 1)))).1 ∧
        ∀ (f : Arr 32 → Arr 32) (w2 : World),
          32 ≤ w2.rand.avail.length → w2.now 1 = w.now 1 →
          MakeBlockSigningKeySeeded { p with publicKey := f } w2 root sub key sk
            = Run.done (some b, some (sk.1.take 32), none)) ∧
    (∀ e, GenerateKey p w.rand = Except.error e →
      MakeBlockSigningKeySeeded p w root sub key sk = Run.done (none, none, some e)) ∧
    (∀ kp e, GenerateKey p w.rand = Except.ok kp →
      GenerateKey p (bufferOf root) = Except.error e →
      MakeBlockSigningKeySeeded p w root sub key sk = Run.done (none, none, some e)) := by
  have succeeds : ∀ (p0 : Pkg) (w0 : World),
      p0.ProofOfWorkLength = p.ProofOfWorkLength →
      p0.ProofOfWorkChainID = p.ProofOfWorkChainID →
      32 ≤ root.length → 32 ≤ w0.rand.avail.length →
      ∃ b, MakeBlockSigningKeySeeded p0 w0 root sub key sk
        = Run.done (some b, some (sk.1.take 32), none) := by
    intro p0 w0 hL hC hroot hrand
    obtain ⟨pub, priv, hg⟩ := generateKey_returns p0 hrand
    obtain ⟨pub2, priv2, hg2⟩ := @generateKey_returns p0 (bufferOf root) hroot
    obtain ⟨b0, k0, h0⟩ :=
      (@fixed_past_tag p0 w0 root sub key hdec (by rw [hL]; exact hlen)
        (by rw [hL, hC]; exact hconst) (by rw [hL, hC]; exact htag)).2.2 _ _ hg hg2
    unfold MakeBlockSigningKeySeeded
    rw [h0]
    exact ⟨_, rfl⟩
  refine ⟨?_, ?_, ?_⟩
  · intro hroot hrand
    obtain ⟨b, hb⟩ := succeeds p w rfl rfl hroot hrand
    have hrun : (BuildOp.Seeded sk).run p w root sub key
        = Run.done (some b, some (sk.1.take 32), none) := hb
    obtain ⟨-, v, m, r, -, -, -, sg, -⟩ := run_done_fields hrun
    have t := run_done_timestamp hrun
    simp only [BuildOp.clockReading] at t
    have n : b.newPubKey = sk.1.drop 32 := by
      rcases seeded_done_cases hb with ⟨e, he⟩ | ⟨b1, k1, b3, -, hs, hr⟩
      · simp at he
      · simp only [Prod.mk.injEq, Option.some.injEq] at hr
        rw [hr.1]; exact hs.2.2.2.1
    refine ⟨b, hb, n, r, t, ?_, ?_⟩
    · rw [sg]
      unfold versionToTimestamp
      rw [v, m, r, n, t]
    · intro f w2 hrand2 hnow
      obtain ⟨b2, hb2⟩ := succeeds { p with publicKey := f } w2 rfl rfl hroot hrand2
      rw [hb2, (seeded_result_unique hb hb2 rfl hnow).1]
  · intro e he
    have h0 := (@fixed_past_tag p w root sub key hdec hlen hconst htag).1 e he
    unfold MakeBlockSigningKeySeeded
    rw [h0]
  · intro kp e hk he
    have h0 := (@fixed_past_tag p w root sub key hdec hlen hconst htag).2.1
      kp e hk he
    unfold MakeBlockSigningKeySeeded
    rw [h0]

theorem seeded_runs_inner_generation_witness :
    ∃ b, MakeBlockSigningKeySeeded demoPkg demoWorld demoRoot (str "sub") demoKey demoSigningKey
        = Run.done (some b, some (demoSigningKey.1.take 32), none) ∧
      b.newPubKey = demoSigningKey.1.drop 32 ∧
      b.rootChainID = (hexDecode demoRoot).1 ∧
      b.timestamp = PutUint64 (uint64 (demoWorld.now 1)) ∧
      b.signiture = (demoPkg.Sign demoKey ([0x00] ++ str "New Block Signing Key"
        ++ (hexDecode demoRoot).1 ++ demoSigningKey.1.drop 32
        ++ PutUint64 (uint64 (demoWorld.now 1)))).1 ∧
      ∀ (f : Arr 32 → Arr 32) (w2 : World),
        32 ≤ w2.rand.avail.length → w2.now 1 = demoWorld.now 1 →
        MakeBlockSigningKeySeeded { demoPkg with publicKey := f } w2 demoRoot (str "sub")
            demoKey demoSigningKey
          = Run.done (some b, some (demoSigningKey.1.take 32), none) :=
  (seeded_runs_inner_generation demoPkg demoWorld demoRoot (str "sub") demoKey demoSigningKey
    (by decide) (by decide) (by decide) (by decide)).1 (by decide) (by decide)

end Identity
